import Mathlib

/-!
Verification development for the fecal repair-symbol encoder
(`src/FecalEncoder.cpp`, namespace `fecal`, `Encoder::Initialize` and
`Encoder::Encode`).

Bytes are modelled as `Nat` (all values produced stay below 256 because the
only operations are XOR and a table lookup); byte buffers are `List Nat`.
The GF(256) multiplication table, the code descriptor
(`GetColumnValue`, `GetRowValue`, `GetRowOpcode`), the deterministic
pseudorandom generator (`PCGRandom`) and the two tunable constants
`kColumnLaneCount` and `kPairAddRate` are declared outside the translated
unit; the spec treats them as given primitives, so they are fields of a
`CodeParams` structure the whole development is parameterised over.
-/

/-- Number of power sums per lane.  Fixed at 3 by the source
(`static_assert(kColumnSumCount == 3, ...)`). -/
def kColumnSumCount : Nat := 3

/-- Byte buffer. -/
abbrev Buf := List Nat

/-- Modelled from the spec: the given primitives of the code construction.
`gfMul` is the GF(256) multiplication table; `columnValue`, `rowValue` and
`rowOpcode` are the frozen Code Descriptor functions (`GetColumnValue`,
`GetRowValue`, `GetRowOpcode`); `prngSeq row count i` is the i-th output of
`PCGRandom::Next()` after `Seed(row, count)` (the generator is deterministic,
so the sequence is a function of the seed pair); `kColumnLaneCount` and
`kPairAddRate` are the fixed configuration constants. -/
structure CodeParams where
  kColumnLaneCount : Nat
  kPairAddRate : Nat
  gfMul : Nat → Nat → Nat
  columnValue : Nat → Nat
  rowValue : Nat → Nat
  rowOpcode : Nat → Nat → Nat
  prngSeq : Nat → Nat → Nat → Nat
  columnValue_nz : ∀ c, columnValue c ≠ 0
  rowValue_nz : ∀ r, rowValue r ≠ 0

/-- Reading `len` bytes starting at a buffer pointer (the semantics of a
`memcpy` source operand).  Reads past the end of the modelled buffer
default to 0. -/
def readBytes (src : Buf) (len : Nat) : Buf :=
  (List.range len).map (fun i => src.getD i 0)

/-- Modelled from the spec: `gf256_add_mem(dst, src, len)` XORs the first
`len` bytes of `src` into `dst` bytewise and leaves the rest of `dst`
unchanged. -/
def gf256_add_mem (dst src : Buf) (len : Nat) : Buf :=
  (List.range dst.length).map
    (fun i => if i < len then dst.getD i 0 ^^^ src.getD i 0 else dst.getD i 0)

/-- Modelled from the spec: `gf256_muladd_mem(dst, x, src, len)` performs
`dst[i] ^= table[x][src[i]]` for `i < len`. -/
def gf256_muladd_mem (mul : Nat → Nat → Nat) (dst : Buf) (x : Nat)
    (src : Buf) (len : Nat) : Buf :=
  (List.range dst.length).map
    (fun i => if i < len then dst.getD i 0 ^^^ mul x (src.getD i 0)
              else dst.getD i 0)

/-- Full-buffer bytewise XOR of `src` into `dst` (the semantics of an
`XORSummer.Add` over the whole symbol, after flushing). -/
def xorFull (dst src : Buf) : Buf :=
  (List.range dst.length).map (fun i => dst.getD i 0 ^^^ src.getD i 0)

/-- Result codes of the public API (`FecalResult`). -/
inductive FecalResult where
  | Success
  | InvalidInput
  | OutOfMemory
deriving DecidableEq, Repr

/-- Output view handed back by `Encode` (`FecalSymbol`): data pointer
contents, byte count, row index. -/
structure FecalSymbol where
  data : Buf
  bytes : Nat
  index : Nat
deriving DecidableEq, Repr

/-- State of an `Encoder` object: the `EncoderAppDataWindow` parameters and
borrowed original-column pointers, the `kColumnLaneCount × kColumnSumCount`
lane-sum buffers, and the `Sum` / `Product` workspace.  A buffer that is
`none` is unallocated (`Data == nullptr`). -/
structure EncoderState where
  inputCount : Nat
  symbolBytes : Nat
  finalBytes : Nat
  originalData : List Buf
  laneSums : Nat → Nat → Option Buf
  sum : Option Buf
  product : Option Buf

/-- Fresh encoder object: nothing allocated, parameters zero. -/
def freshEncoder : EncoderState :=
  { inputCount := 0
    symbolBytes := 0
    finalBytes := 0
    originalData := []
    laneSums := fun _ _ => none
    sum := none
    product := none }

/-- Bytes of column `c` as stored in caller memory
(`Window.OriginalData[c]`). -/
def EncoderState.column (s : EncoderState) (c : Nat) : Buf :=
  s.originalData.getD c []

/-- Modelled from the spec: `Window.IsFinalColumn(i)` is true iff
`i == inputCount - 1`. -/
def EncoderState.isFinal (s : EncoderState) (c : Nat) : Prop :=
  c + 1 = s.inputCount

instance (s : EncoderState) (c : Nat) : Decidable (s.isFinal c) := by
  unfold EncoderState.isFinal; infer_instance

/-- Lane-sum buffer contents for lane `l`, power-sum slot `k`
(`LaneSums[l][k].Data`); empty if unallocated. -/
def laneBuf (s : EncoderState) (l k : Nat) : Buf :=
  (s.laneSums l k).getD []

/-- The first, unrolled sparse iteration of `Encode`: the accumulator is
fully overwritten with the selected column.  A final column is copied for
`FinalBytes` and the tail up to `SymbolBytes` is `memset` to zero; any other
column is copied whole. -/
def loadColumn (s : EncoderState) (c : Nat) : Buf :=
  if s.isFinal c then
    readBytes (s.column c) s.finalBytes
      ++ List.replicate (s.symbolBytes - s.finalBytes) 0
  else
    readBytes (s.column c) s.symbolBytes

/-- A subsequent sparse iteration of `Encode`: a final column is XORed in
over `FinalBytes` only (`gf256_add_mem(out, orig, FinalBytes)`); any other
column is added through the XOR summer over the whole symbol. -/
def sparseAdd (s : EncoderState) (dst : Buf) (c : Nat) : Buf :=
  if s.isFinal c then gf256_add_mem dst (s.column c) s.finalBytes
  else gf256_add_mem dst (s.column c) s.symbolBytes

/-- Sparse iteration count of `Encode`:
`(InputCount + kPairAddRate - 1) / kPairAddRate`. -/
def pairCount (P : CodeParams) (n : Nat) : Nat :=
  (n + P.kPairAddRate - 1) / P.kPairAddRate

/-- The `d`-th generator output for seed `(row, n)` reduced into the column
range (`prng.Next() % count`). -/
def drawAt (P : CodeParams) (row n d : Nat) : Nat :=
  P.prngSeq row n d % n

/-- One non-first sparse iteration: draw `element1`, feed `Sum`; draw
`elementRX`, feed `Product`; the third component counts generator draws. -/
def sparseIter (P : CodeParams) (s : EncoderState) (row : Nat)
    (st : Buf × Buf × Nat) : Buf × Buf × Nat :=
  let e1 := drawAt P row s.inputCount st.2.2
  let eRX := drawAt P row s.inputCount (st.2.2 + 1)
  (sparseAdd s st.1 e1, sparseAdd s st.2.1 eRX, st.2.2 + 2)

/-- Sparse phase of `Encode`: the unrolled first iteration overwrites both
accumulators, then iterations `1 ≤ i < pairCount` add pairs of columns.
Returns `(Sum, Product, number of generator draws consumed)`. -/
def sparsePhase (P : CodeParams) (s : EncoderState) (row : Nat) :
    Buf × Buf × Nat :=
  let n := s.inputCount
  let sum0 := loadColumn s (drawAt P row n 0)
  let prod0 := loadColumn s (drawAt P row n 1)
  (List.range' 1 (pairCount P n - 1)).foldl
    (fun st _i => sparseIter P s row st) (sum0, prod0, 2)

/-- Dense-phase work of one lane in `Encode`: consult
`opcode = GetRowOpcode(laneIndex, row)`; the mask walks bits
`0 .. kColumnSumCount-1` adding lane sums into `Sum`, then continues through
bits `kColumnSumCount .. 2*kColumnSumCount-1` adding lane sums into
`Product`. -/
def denseLane (P : CodeParams) (s : EncoderState) (row : Nat)
    (sp : Buf × Buf) (l : Nat) : Buf × Buf :=
  let opcode := P.rowOpcode l row
  let sum1 := (List.range kColumnSumCount).foldl
    (fun acc k => if opcode &&& (1 <<< k) ≠ 0 then
        gf256_add_mem acc (laneBuf s l k) s.symbolBytes else acc) sp.1
  let prod1 := (List.range kColumnSumCount).foldl
    (fun acc k => if opcode &&& (1 <<< (kColumnSumCount + k)) ≠ 0 then
        gf256_add_mem acc (laneBuf s l k) s.symbolBytes else acc) sp.2
  (sum1, prod1)

/-- Dense phase of `Encode`: every lane contributes per its row opcode. -/
def densePhase (P : CodeParams) (s : EncoderState) (row : Nat)
    (sp : Buf × Buf) : Buf × Buf :=
  (List.range P.kColumnLaneCount).foldl (denseLane P s row) sp

/-- Contents of the `Sum` and `Product` workspace after the sparse and
dense phases of an (initialized) `Encode` call, before the final
combination. -/
def encodeDense (P : CodeParams) (s : EncoderState) (row : Nat) :
    Buf × Buf :=
  densePhase P s row ((sparsePhase P s row).1, (sparsePhase P s row).2.1)

/-- Final contents of the `Sum` workspace:
`gf256_muladd_mem(Sum, GetRowValue(row), Product, symbolBytes)` applied to
the post-dense-phase accumulators. -/
def encodeOut (P : CodeParams) (s : EncoderState) (row : Nat) : Buf :=
  gf256_muladd_mem P.gfMul (encodeDense P s row).1 (P.rowValue row)
    (encodeDense P s row).2 s.symbolBytes

/-- The body of `Encoder::Encode(row, symbol)`.  Returns the result code,
the encoder state after the call, and the output view (if any).  The
uninitialized check is the source's `if (!Product.Data)`. -/
def Encode (P : CodeParams) (s : EncoderState) (row : Nat) :
    FecalResult × EncoderState × Option FecalSymbol :=
  match s.product with
  | none => (FecalResult.InvalidInput, s, none)
  | some _ =>
    (FecalResult.Success,
      { s with
        sum := some (encodeOut P s row)
        product := some (encodeDense P s row).2 },
      some { data := encodeOut P s row, bytes := s.symbolBytes, index := row })

/-- Encoder state after an `Encode` call. -/
def encodeStep (P : CodeParams) (s : EncoderState) (row : Nat) :
    EncoderState :=
  (Encode P s row).2.1

/-- Output view of an `Encode` call. -/
def encodeOutput (P : CodeParams) (s : EncoderState) (row : Nat) :
    Option FecalSymbol :=
  (Encode P s row).2.2

/-- Encoder state after a sequence of `Encode` calls. -/
def runEncodes (P : CodeParams) (s : EncoderState) (rows : List Nat) :
    EncoderState :=
  rows.foldl (encodeStep P) s

/-- Modelled from the spec: `Window.SetParameters(inputCount, totalBytes)`
fails on zero inputs, computes `symbolBytes` by ceiling division and
`finalBytes = totalBytes - symbolBytes*(inputCount-1)`, failing if the
latter would be non-positive. -/
def setParameters (input_count total_bytes : Nat) : Option (Nat × Nat) :=
  if input_count = 0 ∨ total_bytes = 0 then none
  else
    let sb := (total_bytes + input_count - 1) / input_count
    if total_bytes ≤ sb * (input_count - 1) then none
    else some (sb, total_bytes - sb * (input_count - 1))

/-- Lane-sum buffers after the allocation loop of `Initialize`, given an
allocation oracle `alloc` (allocation `laneIndex*kColumnSumCount+sumIndex`
succeeds iff `alloc` holds there).  The loop walks lanes in order and stops
at the first failure, so slot `(l, k)` is allocated (and `memset` to zero)
iff every allocation up to and including its own succeeded. -/
def lanesAfterAlloc (alloc : Nat → Bool) (kL sb : Nat) :
    Nat → Nat → Option Buf :=
  fun l k =>
    if l < kL ∧ k < kColumnSumCount
        ∧ (List.range (l * kColumnSumCount + k + 1)).all alloc then
      some (List.replicate sb 0)
    else none

/-- Whether every lane-sum allocation of `Initialize` succeeds. -/
def allLanesOk (alloc : Nat → Bool) (kL : Nat) : Bool :=
  (List.range (kL * kColumnSumCount)).all alloc

/-- One iteration of the column loop of `Initialize`: for column `c` with
`laneIndex = c % kColumnLaneCount`, `CX = GetColumnValue(c)` and
`CX2 = gf256_sqr(CX)`, perform `Sum[0] += Data`, `Sum[1] += CX * Data`,
`Sum[2] += CX^2 * Data` over `symbolBytes` bytes. -/
def initColumnStep (P : CodeParams) (sb : Nat) (data : List Buf)
    (lanes : Nat → Nat → Option Buf) (c : Nat) : Nat → Nat → Option Buf :=
  let col := data.getD c []
  let CX := P.columnValue c
  let CX2 := P.gfMul CX CX
  let l := c % P.kColumnLaneCount
  fun l2 k2 =>
    if l2 = l then
      if k2 = 0 then some (gf256_add_mem ((lanes l 0).getD []) col sb)
      else if k2 = 1 then
        some (gf256_muladd_mem P.gfMul ((lanes l 1).getD []) CX col sb)
      else if k2 = 2 then
        some (gf256_muladd_mem P.gfMul ((lanes l 2).getD []) CX2 col sb)
      else lanes l2 k2
    else lanes l2 k2

/-- The body of `Encoder::Initialize(input_count, input_data, total_bytes)`.
`alloc` is the allocation oracle (allocations are numbered in program
order: the lane sums, then `Sum`, then `Product`).  On a validation
failure the state is untouched; on an allocation failure the function
returns at once, keeping whatever was allocated so far; on success the
column loop accumulates every column into its lane's power sums.
Workspace contents start as zero placeholders (the source leaves them
uninitialized, but `Encode` overwrites them before any read). -/
def InitializeEncoder (P : CodeParams) (alloc : Nat → Bool) (s : EncoderState)
    (input_count : Nat) (input_data : List Buf) (total_bytes : Nat) :
    FecalResult × EncoderState :=
  match setParameters input_count total_bytes with
  | none => (FecalResult.InvalidInput, s)
  | some q =>
    let sb := q.1
    let s1 : EncoderState :=
      { s with
        inputCount := input_count
        symbolBytes := sb
        finalBytes := q.2
        originalData := (List.range input_count).map
          (fun i => input_data.getD i []) }
    let lanes := lanesAfterAlloc alloc P.kColumnLaneCount sb
    if ¬ allLanesOk alloc P.kColumnLaneCount = true then
      (FecalResult.OutOfMemory, { s1 with laneSums := lanes })
    else if ¬ alloc (P.kColumnLaneCount * kColumnSumCount) = true then
      (FecalResult.OutOfMemory, { s1 with laneSums := lanes })
    else if ¬ alloc (P.kColumnLaneCount * kColumnSumCount + 1) = true then
      (FecalResult.OutOfMemory,
        { s1 with
          laneSums := lanes
          sum := some (List.replicate sb 0) })
    else
      let lanes2 := (List.range input_count).foldl
        (initColumnStep P sb s1.originalData) lanes
      (FecalResult.Success,
        { s1 with
          laneSums := lanes2
          sum := some (List.replicate sb 0)
          product := some (List.replicate sb 0) })

/-- Sparse-phase `Sum` accumulator as the spec describes it: iteration 0
copies the (zero-padded) column selected by generator draw 0; iteration
`1 ≤ i < pairCount` XORs in the (zero-padded) column selected by draw
`2*i`. -/
def sparseSumSpec (P : CodeParams) (s : EncoderState) (row : Nat) : Buf :=
  (List.range' 1 (pairCount P s.inputCount - 1)).foldl
    (fun acc i => xorFull acc (loadColumn s (drawAt P row s.inputCount (2 * i))))
    (loadColumn s (drawAt P row s.inputCount 0))

/-- Sparse-phase `Product` accumulator as the spec describes it: draws
`2*i + 1` feed `Product`. -/
def sparseProdSpec (P : CodeParams) (s : EncoderState) (row : Nat) : Buf :=
  (List.range' 1 (pairCount P s.inputCount - 1)).foldl
    (fun acc i => xorFull acc (loadColumn s (drawAt P row s.inputCount (2 * i + 1))))
    (loadColumn s (drawAt P row s.inputCount 1))

/-- Lane-sum buffers selected by the row opcodes, in lane order: for each
lane `l`, the power-sum buffers whose opcode bit `base + k` is set
(`base = 0` for the `Sum` half, `base = kColumnSumCount` for the `Product`
half of the bitmask). -/
def laneSelect (P : CodeParams) (s : EncoderState) (row base : Nat) :
    List Buf :=
  ((List.range P.kColumnLaneCount).map (fun l =>
    ((List.range kColumnSumCount).filter
      (fun k => (P.rowOpcode l row).testBit (base + k))).map
      (fun k => laneBuf s l k))).flatten

/-- Power sum of degree `k` over exactly the columns assigned to lane `l`,
as the spec describes the lane accumulators: a zero-initialized buffer
accumulating `data[c]`, `CX·data[c]` or `CX²·data[c]` over the columns
`c < n` with `c mod kColumnLaneCount = l`. -/
def laneSumSpec (P : CodeParams) (data : List Buf) (sb n l k : Nat) : Buf :=
  ((List.range n).filter (fun c => c % P.kColumnLaneCount == l)).foldl
    (fun acc c =>
      if k = 0 then gf256_add_mem acc (data.getD c []) sb
      else if k = 1 then
        gf256_muladd_mem P.gfMul acc (P.columnValue c) (data.getD c []) sb
      else
        gf256_muladd_mem P.gfMul acc
          (P.gfMul (P.columnValue c) (P.columnValue c)) (data.getD c []) sb)
    (List.replicate sb 0)

/-- Concrete code parameters used to evaluate the development on explicit
inputs (any instance works; the claims are generic in the parameters). -/
def sampleParams : CodeParams :=
  { kColumnLaneCount := 2
    kPairAddRate := 2
    gfMul := fun a b => a * b % 256
    columnValue := fun c => c % 255 + 1
    rowValue := fun _ => 2
    rowOpcode := fun l r => (l + 3 * r + 1) % 64
    prngSeq := fun row n i => row * 7 + n * 13 + i * 31
    columnValue_nz := fun c => Nat.succ_ne_zero (c % 255)
    rowValue_nz := fun _ => Nat.succ_ne_zero 1 }

/-- Allocation oracle where every allocation succeeds. -/
def allocAll : Nat → Bool := fun _ => true

/-- Allocation oracle where the fourth allocation (the first sum slot of
lane 1 when `kColumnLaneCount = 2`) fails. -/
def allocFail3 : Nat → Bool := fun k => k != 3

/-- Two original columns over `totalBytes = 3`, so `symbolBytes = 2` and
`finalBytes = 1`: the final column occupies one logical byte (value 3);
the 9 models whatever byte happens to sit in memory after it. -/
def sampleData : List Buf := [[1, 2], [3, 9]]

/-- Same logical content as `sampleData` but with a zero byte after the
final column's logical end. -/
def sampleDataZ : List Buf := [[1, 2], [3, 0]]

/-- Encoder state after a successful `Initialize` over `sampleData`. -/
def sampleState : EncoderState :=
  (InitializeEncoder sampleParams allocAll freshEncoder 2 sampleData 3).2

/-! Basic pointwise and length lemmas for the buffer primitives. -/

lemma getD_range_map (f : Nat → Nat) (n i : Nat) :
    ((List.range n).map f).getD i 0 = if i < n then f i else 0 := by
  rcases lt_or_ge i n with h | h
  · rw [List.getD_eq_getElem?_getD, List.getElem?_map, List.getElem?_range h]
    simp [h]
  · rw [List.getD_eq_getElem?_getD, List.getElem?_eq_none (by simpa using h)]
    simp [Nat.not_lt.2 h]

lemma getD_append (a b : Buf) (i : Nat) :
    (a ++ b).getD i 0 =
      if i < a.length then a.getD i 0 else b.getD (i - a.length) 0 := by
  rw [List.getD_eq_getElem?_getD, List.getElem?_append]
  split
  · rw [List.getD_eq_getElem?_getD]
  · rw [List.getD_eq_getElem?_getD]

lemma getD_replicate_zero (n i : Nat) :
    (List.replicate n (0 : Nat)).getD i 0 = 0 := by
  rw [List.getD_eq_getElem?_getD, List.getElem?_replicate]
  split <;> rfl

lemma length_readBytes (src : Buf) (len : Nat) :
    (readBytes src len).length = len := by
  simp [readBytes]

lemma getD_readBytes (src : Buf) (len i : Nat) :
    (readBytes src len).getD i 0 = if i < len then src.getD i 0 else 0 := by
  simp only [readBytes, getD_range_map]

lemma length_gf256_add_mem (dst src : Buf) (len : Nat) :
    (gf256_add_mem dst src len).length = dst.length := by
  simp [gf256_add_mem]

lemma getD_gf256_add_mem (dst src : Buf) (len i : Nat) :
    (gf256_add_mem dst src len).getD i 0 =
      if i < dst.length then
        (if i < len then dst.getD i 0 ^^^ src.getD i 0 else dst.getD i 0)
      else 0 := by
  simp only [gf256_add_mem, getD_range_map]

lemma length_gf256_muladd_mem (mul : Nat → Nat → Nat) (dst : Buf) (x : Nat)
    (src : Buf) (len : Nat) :
    (gf256_muladd_mem mul dst x src len).length = dst.length := by
  simp [gf256_muladd_mem]

lemma getD_gf256_muladd_mem (mul : Nat → Nat → Nat) (dst : Buf) (x : Nat)
    (src : Buf) (len i : Nat) :
    (gf256_muladd_mem mul dst x src len).getD i 0 =
      if i < dst.length then
        (if i < len then dst.getD i 0 ^^^ mul x (src.getD i 0)
         else dst.getD i 0)
      else 0 := by
  simp only [gf256_muladd_mem, getD_range_map]

lemma length_xorFull (dst src : Buf) :
    (xorFull dst src).length = dst.length := by
  simp [xorFull]

lemma getD_xorFull (dst src : Buf) (i : Nat) :
    (xorFull dst src).getD i 0 =
      if i < dst.length then dst.getD i 0 ^^^ src.getD i 0 else 0 := by
  simp only [xorFull, getD_range_map]

lemma buf_ext (a b : Buf) (hl : a.length = b.length)
    (hp : ∀ i < a.length, a.getD i 0 = b.getD i 0) : a = b := by
  apply List.ext_getElem hl
  intro n h1 h2
  have h := hp n h1
  rwa [List.getD_eq_getElem _ _ h1, List.getD_eq_getElem _ _ h2] at h

lemma length_loadColumn (s : EncoderState) (c : Nat)
    (h : s.finalBytes ≤ s.symbolBytes) :
    (loadColumn s c).length = s.symbolBytes := by
  unfold loadColumn
  split
  · simp only [List.length_append, length_readBytes, List.length_replicate]
    omega
  · exact length_readBytes _ _

lemma getD_loadColumn_final (s : EncoderState) (c i : Nat)
    (h : s.isFinal c) :
    (loadColumn s c).getD i 0 =
      if i < s.finalBytes then (s.column c).getD i 0 else 0 := by
  unfold loadColumn
  rw [if_pos h, getD_append, length_readBytes, getD_readBytes]
  split
  · simp_all
  · exact getD_replicate_zero _ _

lemma getD_loadColumn_nonfinal (s : EncoderState) (c i : Nat)
    (h : ¬ s.isFinal c) :
    (loadColumn s c).getD i 0 =
      if i < s.symbolBytes then (s.column c).getD i 0 else 0 := by
  unfold loadColumn
  rw [if_neg h, getD_readBytes]

/-! Frame and congruence lemmas for `Encode`. -/

lemma encodeStep_none (P : CodeParams) (s : EncoderState) (row : Nat)
    (h : s.product = none) : Encode P s row = (FecalResult.InvalidInput, s, none) := by
  unfold Encode
  rw [h]

lemma encodeStep_some (P : CodeParams) (s : EncoderState) (row : Nat)
    (p : Buf) (h : s.product = some p) :
    Encode P s row =
      (FecalResult.Success,
        { s with
          sum := some (encodeOut P s row)
          product := some (encodeDense P s row).2 },
        some { data := encodeOut P s row, bytes := s.symbolBytes
               index := row }) := by
  unfold Encode
  rw [h]

lemma encodeStep_frame (P : CodeParams) (s : EncoderState) (row : Nat) :
    (encodeStep P s row).inputCount = s.inputCount ∧
    (encodeStep P s row).symbolBytes = s.symbolBytes ∧
    (encodeStep P s row).finalBytes = s.finalBytes ∧
    (encodeStep P s row).originalData = s.originalData ∧
    (encodeStep P s row).laneSums = s.laneSums ∧
    (encodeStep P s row).product.isSome = s.product.isSome := by
  unfold encodeStep
  cases h : s.product
  · rw [encodeStep_none P s row h]
    refine ⟨rfl, rfl, rfl, rfl, rfl, ?_⟩
    rw [h]
  · rw [encodeStep_some P s row _ h]
    exact ⟨rfl, rfl, rfl, rfl, rfl, rfl⟩

lemma sparsePhase_workspace_irrel (P : CodeParams) (s : EncoderState)
    (x y : Option Buf) (row : Nat) :
    sparsePhase P { s with sum := x, product := y } row
      = sparsePhase P s row := by
  cases s
  rfl

lemma encodeDense_workspace_irrel (P : CodeParams) (s : EncoderState)
    (x y : Option Buf) (row : Nat) :
    encodeDense P { s with sum := x, product := y } row
      = encodeDense P s row := by
  cases s
  rfl

lemma encodeOut_workspace_irrel (P : CodeParams) (s : EncoderState)
    (x y : Option Buf) (row : Nat) :
    encodeOut P { s with sum := x, product := y } row
      = encodeOut P s row := by
  cases s
  rfl

lemma encodeOutput_congr (P : CodeParams) (s t : EncoderState) (row : Nat)
    (h1 : s.inputCount = t.inputCount) (h2 : s.symbolBytes = t.symbolBytes)
    (h3 : s.finalBytes = t.finalBytes)
    (h4 : s.originalData = t.originalData) (h5 : s.laneSums = t.laneSums)
    (h6 : s.product.isSome = t.product.isSome) :
    encodeOutput P s row = encodeOutput P t row := by
  cases hp : s.product
  · cases ht : t.product
    · unfold encodeOutput
      rw [encodeStep_none P s row hp, encodeStep_none P t row ht]
    · rw [hp, ht] at h6
      simp at h6
  · cases ht : t.product
    · rw [hp, ht] at h6
      simp at h6
    · unfold encodeOutput
      rw [encodeStep_some P s row _ hp, encodeStep_some P t row _ ht]
      have hs : s = { t with sum := s.sum, product := s.product } := by
        cases s
        cases t
        simp_all
      have ho : encodeOut P s row = encodeOut P t row := by
        rw [hs, encodeOut_workspace_irrel]
      rw [ho, h2]

/-! Length preservation through the phases. -/

lemma length_sparseAdd (s : EncoderState) (dst : Buf) (c : Nat) :
    (sparseAdd s dst c).length = dst.length := by
  unfold sparseAdd
  split <;> exact length_gf256_add_mem _ _ _

lemma sparseAdd_eq_xorFull (s : EncoderState) (dst : Buf) (c : Nat)
    (h : dst.length ≤ s.symbolBytes) :
    sparseAdd s dst c = xorFull dst (loadColumn s c) := by
  by_cases hf : s.isFinal c
  · unfold sparseAdd
    rw [if_pos hf]
    apply buf_ext
    · rw [length_gf256_add_mem, length_xorFull]
    · intro i hi
      rw [length_gf256_add_mem] at hi
      rw [getD_gf256_add_mem, getD_xorFull, if_pos hi, if_pos hi,
        getD_loadColumn_final s c i hf]
      by_cases hfb : i < s.finalBytes
      · rw [if_pos hfb, if_pos hfb]
      · rw [if_neg hfb, if_neg hfb, Nat.xor_zero]
  · unfold sparseAdd
    rw [if_neg hf]
    apply buf_ext
    · rw [length_gf256_add_mem, length_xorFull]
    · intro i hi
      rw [length_gf256_add_mem] at hi
      have hsb : i < s.symbolBytes := lt_of_lt_of_le hi h
      rw [getD_gf256_add_mem, getD_xorFull, if_pos hi, if_pos hi,
        getD_loadColumn_nonfinal s c i hf, if_pos hsb, if_pos hsb]

lemma sparseFold_split (P : CodeParams) (s : EncoderState) (row m : Nat)
    (a b : Buf) :
    (List.range' 1 m).foldl (fun st _i => sparseIter P s row st) (a, b, 2) =
      ((List.range' 1 m).foldl
          (fun acc i => sparseAdd s acc (drawAt P row s.inputCount (2 * i)))
          a,
       (List.range' 1 m).foldl
          (fun acc i =>
            sparseAdd s acc (drawAt P row s.inputCount (2 * i + 1))) b,
       2 + 2 * m) := by
  induction m with
  | zero => rfl
  | succ k ih =>
    rw [List.range'_concat, List.foldl_append, List.foldl_append,
      List.foldl_append, ih]
    simp only [List.foldl_cons, List.foldl_nil, sparseIter]
    have h1 : 2 * (1 + 1 * k) = 2 + 2 * k := by ring
    have h2 : 2 * (1 + 1 * k) + 1 = 2 + 2 * k + 1 := by ring
    rw [Prod.ext_iff, Prod.ext_iff]
    dsimp only
    refine ⟨?_, ?_, ?_⟩
    · rw [h1]
    · rw [h2]
    · omega

lemma length_sparsePhase (P : CodeParams) (s : EncoderState) (row : Nat)
    (h : s.finalBytes ≤ s.symbolBytes) :
    (sparsePhase P s row).1.length = s.symbolBytes ∧
    (sparsePhase P s row).2.1.length = s.symbolBytes := by
  have key : ∀ (e : Nat) (L : List Nat) (a : Buf),
      ((L.foldl (fun acc i =>
        sparseAdd s acc (drawAt P row s.inputCount (2 * i + e))) a).length)
        = a.length := by
    intro e L
    induction L with
    | nil => intro a; rfl
    | cons x xs ih2 => intro a; rw [List.foldl_cons, ih2, length_sparseAdd]
  unfold sparsePhase
  rw [sparseFold_split]
  dsimp only
  constructor
  · have k0 := key 0 (List.range' 1 (pairCount P s.inputCount - 1))
      (loadColumn s (drawAt P row s.inputCount 0))
    simp only [Nat.add_zero] at k0
    rw [k0, length_loadColumn s _ h]
  · rw [key 1, length_loadColumn s _ h]

lemma sparseFold_eq_xorFold (P : CodeParams) (s : EncoderState)
    (row e : Nat) (L : List Nat) (a : Buf)
    (ha : a.length ≤ s.symbolBytes) :
    L.foldl (fun acc i =>
        sparseAdd s acc (drawAt P row s.inputCount (2 * i + e))) a
      = L.foldl (fun acc i =>
          xorFull acc (loadColumn s (drawAt P row s.inputCount (2 * i + e))))
          a := by
  induction L generalizing a with
  | nil => rfl
  | cons x xs ih =>
    rw [List.foldl_cons, List.foldl_cons, sparseAdd_eq_xorFull s _ _ ha]
    exact ih _ (by rw [length_xorFull]; exact ha)

/-- C3: in the `Ready` state, `Encode(row)` performs exactly
`pairCount = ceil(inputCount / kPairAddRate)` sparse iterations driven by
the generator seeded from `(row, inputCount)`; iteration `i` draws, in
order, `element1` from generator output `2*i` and `elementRX` from output
`2*i + 1`, each reduced modulo `inputCount`; iteration 0 overwrites `Sum`
with column `element1` and `Product` with column `elementRX` (zero-padded
if final), and every later iteration XORs the selected column into the
respective accumulator, with no deduplication of colliding indices.  The
third component witnesses that exactly `2 * pairCount` generator outputs
are consumed. -/
theorem sparse_phase_structure (P : CodeParams) (s : EncoderState)
    (row : Nat) (hn : 0 < s.inputCount) (hr : 0 < P.kPairAddRate)
    (hfb : s.finalBytes ≤ s.symbolBytes) :
    sparsePhase P s row =
      (sparseSumSpec P s row, sparseProdSpec P s row,
       2 * pairCount P s.inputCount) := by
  have hpc : 1 ≤ pairCount P s.inputCount := by
    unfold pairCount
    rw [Nat.one_le_div_iff hr]
    omega
  unfold sparsePhase sparseSumSpec sparseProdSpec
  rw [sparseFold_split]
  rw [Prod.ext_iff, Prod.ext_iff]
  dsimp only
  refine ⟨?_, ?_, ?_⟩
  · have key := sparseFold_eq_xorFold P s row 0
      (List.range' 1 (pairCount P s.inputCount - 1))
      (loadColumn s (drawAt P row s.inputCount 0))
      (le_of_eq (length_loadColumn s _ hfb))
    simp only [Nat.add_zero] at key
    exact key
  · exact sparseFold_eq_xorFold P s row 1
      (List.range' 1 (pairCount P s.inputCount - 1))
      (loadColumn s (drawAt P row s.inputCount 1))
      (le_of_eq (length_loadColumn s _ hfb))
  · omega

/-- Witness for C3 at concrete parameters and a concretely initialized
encoder state. -/
theorem sparse_phase_structure_witness :
    0 < sampleState.inputCount ∧ 0 < sampleParams.kPairAddRate ∧
    sampleState.finalBytes ≤ sampleState.symbolBytes ∧
    sparsePhase sampleParams sampleState 0 =
      (sparseSumSpec sampleParams sampleState 0,
       sparseProdSpec sampleParams sampleState 0,
       2 * pairCount sampleParams sampleState.inputCount) :=
  ⟨by decide, by decide, by decide,
   sparse_phase_structure sampleParams sampleState 0 (by decide) (by decide)
     (by decide)⟩

/-- C1: for a fixed post-`Initialize` encoder state, `Encode(r)` returns
byte-identical output however many `Encode` calls (for any rows, in any
order) happened in between — the workspace is fully overwritten on every
call and nothing `Encode` reads is ever written by `Encode`; moreover an
`Encode` call never changes the encoder's logical state (window
parameters, original data, lane sums, and initialized-ness are all
preserved). -/
theorem encode_deterministic_and_stateless (P : CodeParams)
    (s : EncoderState) (rows : List Nat) (r : Nat) :
    encodeOutput P (runEncodes P s rows) r = encodeOutput P s r ∧
    ((runEncodes P s rows).inputCount = s.inputCount ∧
     (runEncodes P s rows).originalData = s.originalData ∧
     (runEncodes P s rows).laneSums = s.laneSums ∧
     (runEncodes P s rows).product.isSome = s.product.isSome) := by
  induction rows generalizing s with
  | nil => exact ⟨rfl, rfl, rfl, rfl, rfl⟩
  | cons a as ih =>
    have hstep := encodeStep_frame P s a
    have htail := ih (encodeStep P s a)
    have hout : encodeOutput P (encodeStep P s a) r = encodeOutput P s r :=
      encodeOutput_congr P _ s r hstep.1 hstep.2.1 hstep.2.2.1
        hstep.2.2.2.1 hstep.2.2.2.2.1 hstep.2.2.2.2.2
    refine ⟨htail.1.trans hout, ?_, ?_, ?_, ?_⟩
    · exact htail.2.1.trans hstep.1
    · exact htail.2.2.1.trans hstep.2.2.2.1
    · exact htail.2.2.2.1.trans hstep.2.2.2.2.1
    · exact htail.2.2.2.2.trans hstep.2.2.2.2.2

/-- C9: after a successful `Initialize`, an `Encode` call leaves the
window parameters (`inputCount`, `symbolBytes`, `finalBytes`), the
borrowed original-symbol data, and every lane power-sum buffer unchanged;
of the encoder-owned buffers only the `Sum` and `Product` workspace fields
are (re)written.  This holds for every state, initialized or not. -/
theorem encode_frame_effects (P : CodeParams) (s : EncoderState)
    (row : Nat) :
    (encodeStep P s row).inputCount = s.inputCount ∧
    (encodeStep P s row).symbolBytes = s.symbolBytes ∧
    (encodeStep P s row).finalBytes = s.finalBytes ∧
    (encodeStep P s row).originalData = s.originalData ∧
    (encodeStep P s row).laneSums = s.laneSums := by
  have h := encodeStep_frame P s row
  exact ⟨h.1, h.2.1, h.2.2.1, h.2.2.2.1, h.2.2.2.2.1⟩

/-! Analysis of `Initialize`. -/

lemma initialize_result_or (P : CodeParams) (alloc : Nat → Bool)
    (s : EncoderState) (n : Nat) (d : List Buf) (t : Nat) :
    (InitializeEncoder P alloc s n d t).1 = FecalResult.Success ∨
    (InitializeEncoder P alloc s n d t).2.product = s.product := by
  unfold InitializeEncoder
  cases hq : setParameters n t
  · exact Or.inr rfl
  · dsimp only
    split
    · exact Or.inr rfl
    · split
      · exact Or.inr rfl
      · split
        · exact Or.inr rfl
        · exact Or.inl rfl

lemma setParameters_spec (n t sb fb : Nat)
    (h : setParameters n t = some (sb, fb)) :
    0 < n ∧ 0 < t ∧ sb = (t + n - 1) / n ∧ fb = t - sb * (n - 1) ∧
    0 < fb ∧ fb ≤ sb ∧ 0 < sb := by
  unfold setParameters at h
  split at h
  · exact absurd h (by simp)
  · rename_i hz
    dsimp only at h
    split at h
    · exact absurd h (by simp)
    · rename_i hg
      have hn : 0 < n := by omega
      have ht : 0 < t := by omega
      injection h with h
      injection h with hsb hfb
      subst hsb
      subst hfb
      have hdm := Nat.div_add_mod (t + n - 1) n
      have hmod : (t + n - 1) % n < n := Nat.mod_lt _ hn
      have hmul : ((t + n - 1) / n) * n
          = ((t + n - 1) / n) * (n - 1) + (t + n - 1) / n := by
        have hn1 : n - 1 + 1 = n := Nat.succ_pred_eq_of_pos hn
        calc ((t + n - 1) / n) * n = ((t + n - 1) / n) * (n - 1 + 1) := by
              rw [hn1]
          _ = ((t + n - 1) / n) * (n - 1) + (t + n - 1) / n :=
              Nat.mul_succ _ _
      have hsb1 : 1 ≤ (t + n - 1) / n := by
        rw [Nat.one_le_div_iff hn]
        omega
      refine ⟨hn, ht, rfl, rfl, by omega, ?_, hsb1⟩
      have hx : n * ((t + n - 1) / n) = ((t + n - 1) / n) * n :=
        Nat.mul_comm _ _
      omega

lemma initialize_success_parts (P : CodeParams) (alloc : Nat → Bool)
    (s : EncoderState) (n : Nat) (d : List Buf) (t sb fb : Nat)
    (hq : setParameters n t = some (sb, fb))
    (h1 : allLanesOk alloc P.kColumnLaneCount = true)
    (h2 : alloc (P.kColumnLaneCount * kColumnSumCount) = true)
    (h3 : alloc (P.kColumnLaneCount * kColumnSumCount + 1) = true) :
    (InitializeEncoder P alloc s n d t).1 = FecalResult.Success ∧
    (InitializeEncoder P alloc s n d t).2.inputCount = n ∧
    (InitializeEncoder P alloc s n d t).2.symbolBytes = sb ∧
    (InitializeEncoder P alloc s n d t).2.finalBytes = fb ∧
    (InitializeEncoder P alloc s n d t).2.originalData
      = (List.range n).map (fun i => d.getD i []) ∧
    (InitializeEncoder P alloc s n d t).2.laneSums
      = (List.range n).foldl
          (initColumnStep P sb ((List.range n).map (fun i => d.getD i [])))
          (lanesAfterAlloc alloc P.kColumnLaneCount sb) ∧
    (InitializeEncoder P alloc s n d t).2.sum = some (List.replicate sb 0) ∧
    (InitializeEncoder P alloc s n d t).2.product
      = some (List.replicate sb 0) := by
  unfold InitializeEncoder
  simp only [hq, h1, h2, h3]
  exact ⟨rfl, rfl, rfl, rfl, rfl, rfl, rfl, rfl⟩

/-- C7: `Encode(row)` returns `InvalidInput` exactly when the encoder has
no allocated `Product` workspace — i.e. before any successful
`Initialize`, including after a failed one (a fresh encoder has no
workspace and a non-successful `Initialize` never allocates `Product`) —
and in that case the state and output are untouched; otherwise it returns
`Success` for every row, with the output view over the encoder-owned `Sum`
buffer, of length `symbolBytes` and index `row`.  No other result code is
possible. -/
theorem encode_error_contract (P : CodeParams) (s : EncoderState)
    (row : Nat) (alloc : Nat → Bool) (n : Nat) (d : List Buf) (t : Nat) :
    ((Encode P s row).1 = FecalResult.InvalidInput ↔ s.product = none) ∧
    (s.product = none → Encode P s row = (FecalResult.InvalidInput, s, none)) ∧
    (s.product ≠ none →
      Encode P s row =
        (FecalResult.Success,
         { s with
           sum := some (encodeOut P s row)
           product := some (encodeDense P s row).2 },
         some { data := encodeOut P s row, bytes := s.symbolBytes
                index := row }) ∧
      some (encodeOut P s row) = (encodeStep P s row).sum) ∧
    freshEncoder.product = none ∧
    ((InitializeEncoder P alloc freshEncoder n d t).1 ≠ FecalResult.Success →
      (InitializeEncoder P alloc freshEncoder n d t).2.product = none) := by
  refine ⟨⟨?_, ?_⟩, ?_, ?_, rfl, ?_⟩
  · intro h
    cases hp : s.product
    · rfl
    · rw [encodeStep_some P s row _ hp] at h
      exact absurd h (by simp)
  · intro h
    rw [encodeStep_none P s row h]
  · intro h
    exact encodeStep_none P s row h
  · intro h
    cases hp : s.product
    · exact absurd hp h
    · refine ⟨encodeStep_some P s row _ hp, ?_⟩
      unfold encodeStep
      rw [encodeStep_some P s row _ hp]
  · intro h
    rcases initialize_result_or P alloc freshEncoder n d t with hs | hu
    · exact absurd hs h
    · exact hu

/-- Witness for C7: a fresh encoder yields `InvalidInput`; a concretely
initialized encoder does not. -/
theorem encode_error_contract_witness :
    (Encode sampleParams freshEncoder 0).1 = FecalResult.InvalidInput ∧
    ¬ (Encode sampleParams sampleState 0).1 = FecalResult.InvalidInput :=
  ⟨((encode_error_contract sampleParams freshEncoder 0 allocAll 2
      sampleData 3).1).mpr rfl,
   fun h => absurd (((encode_error_contract sampleParams sampleState 0
      allocAll 2 sampleData 3).1).mp h) (by decide)⟩

/-- C8 (amended): if any lane-sum or workspace allocation fails during
`Initialize`, it returns `OutOfMemory` at once; the buffers allocated
earlier in the call are retained by the encoder object (exactly those
whose allocation and all preceding ones succeeded), the `Product`
workspace is never allocated, so the encoder is left uninitialized and a
subsequent `Encode` returns `InvalidInput` leaving the state untouched. -/
theorem initialize_alloc_failure (P : CodeParams) (alloc : Nat → Bool)
    (n : Nat) (d : List Buf) (t sb fb row : Nat)
    (hq : setParameters n t = some (sb, fb))
    (hfail : allLanesOk alloc P.kColumnLaneCount = false
      ∨ alloc (P.kColumnLaneCount * kColumnSumCount) = false
      ∨ alloc (P.kColumnLaneCount * kColumnSumCount + 1) = false) :
    (InitializeEncoder P alloc freshEncoder n d t).1 = FecalResult.OutOfMemory ∧
    (InitializeEncoder P alloc freshEncoder n d t).2.product = none ∧
    (InitializeEncoder P alloc freshEncoder n d t).2.laneSums
      = lanesAfterAlloc alloc P.kColumnLaneCount sb ∧
    Encode P (InitializeEncoder P alloc freshEncoder n d t).2 row
      = (FecalResult.InvalidInput,
         (InitializeEncoder P alloc freshEncoder n d t).2, none) := by
  unfold InitializeEncoder
  simp only [hq]
  by_cases c1 : allLanesOk alloc P.kColumnLaneCount = true
  · rw [if_neg (not_not_intro c1)]
    by_cases c2 : alloc (P.kColumnLaneCount * kColumnSumCount) = true
    · rw [if_neg (not_not_intro c2)]
      have c3 : alloc (P.kColumnLaneCount * kColumnSumCount + 1) = false := by
        rcases hfail with h | h | h
        · rw [c1] at h
          exact absurd h (by simp)
        · rw [c2] at h
          exact absurd h (by simp)
        · exact h
      rw [if_pos (by rw [c3]; simp)]
      exact ⟨rfl, rfl, rfl, encodeStep_none P _ row rfl⟩
    · rw [if_pos c2]
      exact ⟨rfl, rfl, rfl, encodeStep_none P _ row rfl⟩
  · rw [if_pos c1]
    exact ⟨rfl, rfl, rfl, encodeStep_none P _ row rfl⟩

/-- Witness for C8 (amended) at a concrete failing allocation. -/
theorem initialize_alloc_failure_witness :
    (InitializeEncoder sampleParams allocFail3 freshEncoder 2 sampleData 3).1
      = FecalResult.OutOfMemory ∧
    (InitializeEncoder sampleParams allocFail3 freshEncoder 2 sampleData 3).2.product
      = none ∧
    (InitializeEncoder sampleParams allocFail3 freshEncoder 2 sampleData 3).2.laneSums
      = lanesAfterAlloc allocFail3 sampleParams.kColumnLaneCount 2 ∧
    Encode sampleParams
        (InitializeEncoder sampleParams allocFail3 freshEncoder 2 sampleData 3).2 0
      = (FecalResult.InvalidInput,
         (InitializeEncoder sampleParams allocFail3 freshEncoder 2 sampleData 3).2,
         none) :=
  initialize_alloc_failure sampleParams allocFail3 2 sampleData 3 2 1 0
    (by decide) (Or.inl (by decide))

/-- C8 counterexample to the claim as stated: when the fourth allocation
(lane 1, slot 0) fails, `Initialize` returns `OutOfMemory` while the
three lane-sum buffers of lane 0, allocated earlier during the very same
call, are still held by the encoder at return — they are not released
before returning (the source returns directly from the allocation loop;
the buffers are reclaimed only with the encoder object). -/
theorem initialize_alloc_failure_retains :
    (InitializeEncoder sampleParams allocFail3 freshEncoder 2 sampleData 3).1
      = FecalResult.OutOfMemory ∧
    (InitializeEncoder sampleParams allocFail3 freshEncoder 2 sampleData 3).2.laneSums
        0 0 = some [0, 0] ∧
    (InitializeEncoder sampleParams allocFail3 freshEncoder 2 sampleData 3).2.laneSums
        0 1 = some [0, 0] ∧
    (InitializeEncoder sampleParams allocFail3 freshEncoder 2 sampleData 3).2.laneSums
        0 2 = some [0, 0] :=
  ⟨by decide, by decide, by decide, by decide⟩

/-- C2 (code bug): the final column is not read as zero-padded everywhere.
`Initialize` accumulates `gf256_add_mem(LaneSums[lane][0].Data, data,
symbolBytes)` for every column, including the final one, so with
`inputCount = 2`, `symbolBytes = 2`, `finalBytes = 1` the byte that
happens to sit after the final column's one logical byte (9 in
`sampleData`, 0 in `sampleDataZ`) lands in the lane sum at offset 1
(`≥ finalBytes`) and from there in `Encode`'s output; the sparse phase of
`Encode`, by contrast, does treat the final column as zero-padded (both
memory contents give identical sparse accumulators). -/
theorem initialize_final_column_overread :
    (InitializeEncoder sampleParams allocAll freshEncoder 2 sampleData 3).2.laneSums
        1 0 = some [3, 9] ∧
    (InitializeEncoder sampleParams allocAll freshEncoder 2 sampleDataZ 3).2.laneSums
        1 0 = some [3, 0] ∧
    sparsePhase sampleParams
        (InitializeEncoder sampleParams allocAll freshEncoder 2 sampleData 3).2 0
      = sparsePhase sampleParams
          (InitializeEncoder sampleParams allocAll freshEncoder 2 sampleDataZ 3).2 0 ∧
    ¬ encodeOutput sampleParams
        (InitializeEncoder sampleParams allocAll freshEncoder 2 sampleData 3).2 0
      = encodeOutput sampleParams
          (InitializeEncoder sampleParams allocAll freshEncoder 2 sampleDataZ 3).2 0 :=
  ⟨by decide, by decide, by decide, by decide⟩

/-- C10: in any `Ready`-shaped state (`inputCount ≥ 1`, original pointer
array of matching length) the sparse phase always runs its first,
fully-overwriting iteration (`pairCount ≥ 1`), its result is independent
of the previous workspace contents, and every column index it can ever
draw is the generator output reduced modulo `inputCount`, hence in
bounds — including the degenerate `inputCount = 1` case where both
accumulators draw only column 0. -/
theorem sparse_safety (P : CodeParams) (s : EncoderState) (row : Nat)
    (hn : 0 < s.inputCount) (hr : 0 < P.kPairAddRate)
    (hd : s.originalData.length = s.inputCount) :
    1 ≤ pairCount P s.inputCount ∧
    (∀ i, drawAt P row s.inputCount i < s.inputCount) ∧
    (∀ i, drawAt P row s.inputCount i < s.originalData.length) ∧
    (∀ x y, sparsePhase P { s with sum := x, product := y } row
      = sparsePhase P s row) ∧
    (s.inputCount = 1 → ∀ i, drawAt P row s.inputCount i = 0) := by
  refine ⟨?_, ?_, ?_, ?_, ?_⟩
  · unfold pairCount
    rw [Nat.one_le_div_iff hr]
    omega
  · intro i
    exact Nat.mod_lt _ hn
  · intro i
    rw [hd]
    exact Nat.mod_lt _ hn
  · intro x y
    exact sparsePhase_workspace_irrel P s x y row
  · intro h1 i
    unfold drawAt
    rw [h1, Nat.mod_one]

/-- Witness for C10 at the concrete initialized state. -/
theorem sparse_safety_witness :
    1 ≤ pairCount sampleParams sampleState.inputCount ∧
    drawAt sampleParams 0 sampleState.inputCount 5
      < sampleState.originalData.length :=
  ⟨(sparse_safety sampleParams sampleState 0 (by decide) (by decide)
      (by decide)).1,
   (sparse_safety sampleParams sampleState 0 (by decide) (by decide)
      (by decide)).2.2.1 5⟩

/-! Dense-phase analysis. -/

lemma decide_and_shift (n k : Nat) :
    decide (n &&& (1 <<< k) ≠ 0) = n.testBit k := by
  rw [Nat.shiftLeft_eq, one_mul, Nat.and_two_pow]
  cases h : n.testBit k <;> simp [h, Nat.pos_iff_ne_zero]

lemma gf256_add_mem_full (dst src : Buf) (len : Nat)
    (h : dst.length ≤ len) :
    gf256_add_mem dst src len = xorFull dst src := by
  apply buf_ext
  · rw [length_gf256_add_mem, length_xorFull]
  · intro i hi
    rw [length_gf256_add_mem] at hi
    rw [getD_gf256_add_mem, getD_xorFull, if_pos hi, if_pos hi,
      if_pos (lt_of_lt_of_le hi h)]

lemma length_foldl_xorFull (bufs : List Buf) (a : Buf) :
    (bufs.foldl xorFull a).length = a.length := by
  induction bufs generalizing a with
  | nil => rfl
  | cons x xs ih => rw [List.foldl_cons, ih, length_xorFull]

lemma selectFold (sb : Nat) (cond : Nat → Prop) [DecidablePred cond]
    (f : Nat → Buf) (ks : List Nat) (acc : Buf) (ha : acc.length ≤ sb) :
    ks.foldl (fun a k => if cond k then gf256_add_mem a (f k) sb else a)
        acc
      = ((ks.filter (fun k => decide (cond k))).map f).foldl xorFull acc := by
  induction ks generalizing acc with
  | nil => rfl
  | cons x xs ih =>
    rw [List.foldl_cons, List.filter_cons]
    by_cases hx : cond x
    · rw [if_pos hx, if_pos (by simp [hx]), List.map_cons, List.foldl_cons,
        gf256_add_mem_full _ _ _ ha]
      exact ih _ (by rw [length_xorFull]; exact ha)
    · rw [if_neg hx, if_neg (by simp [hx])]
      exact ih _ ha

lemma length_selectFold (sb : Nat) (cond : Nat → Prop) [DecidablePred cond]
    (f : Nat → Buf) (ks : List Nat) (acc : Buf) :
    (ks.foldl (fun a k => if cond k then gf256_add_mem a (f k) sb else a)
        acc).length = acc.length := by
  induction ks generalizing acc with
  | nil => rfl
  | cons x xs ih =>
    rw [List.foldl_cons]
    by_cases hx : cond x
    · rw [if_pos hx, ih, length_gf256_add_mem]
    · rw [if_neg hx, ih]

lemma denseLane_eq (P : CodeParams) (s : EncoderState) (row : Nat)
    (sp : Buf × Buf) (l : Nat)
    (h1 : sp.1.length ≤ s.symbolBytes) (h2 : sp.2.length ≤ s.symbolBytes) :
    denseLane P s row sp l =
      ((((List.range kColumnSumCount).filter
          (fun k => (P.rowOpcode l row).testBit k)).map
            (laneBuf s l)).foldl xorFull sp.1,
       (((List.range kColumnSumCount).filter
          (fun k => (P.rowOpcode l row).testBit (kColumnSumCount + k))).map
            (laneBuf s l)).foldl xorFull sp.2) := by
  unfold denseLane
  dsimp only
  rw [selectFold s.symbolBytes _ (laneBuf s l) _ sp.1 h1,
    selectFold s.symbolBytes _ (laneBuf s l) _ sp.2 h2]
  have e1 : (fun k => decide (P.rowOpcode l row &&& (1 <<< k) ≠ 0))
      = (fun k => (P.rowOpcode l row).testBit k) := by
    funext k
    exact decide_and_shift _ _
  have e2 : (fun k =>
        decide (P.rowOpcode l row &&& (1 <<< (kColumnSumCount + k)) ≠ 0))
      = (fun k => (P.rowOpcode l row).testBit (kColumnSumCount + k)) := by
    funext k
    exact decide_and_shift _ _
  rw [e1, e2]

lemma length_denseLane (P : CodeParams) (s : EncoderState) (row : Nat)
    (sp : Buf × Buf) (l : Nat) :
    (denseLane P s row sp l).1.length = sp.1.length ∧
    (denseLane P s row sp l).2.length = sp.2.length := by
  unfold denseLane
  dsimp only
  exact ⟨length_selectFold _ _ _ _ _, length_selectFold _ _ _ _ _⟩

lemma denseFold_split (P : CodeParams) (s : EncoderState) (row : Nat)
    (L : List Nat) (sp : Buf × Buf)
    (h1 : sp.1.length ≤ s.symbolBytes) (h2 : sp.2.length ≤ s.symbolBytes) :
    L.foldl (denseLane P s row) sp =
      (((L.map (fun l => ((List.range kColumnSumCount).filter
          (fun k => (P.rowOpcode l row).testBit k)).map
            (laneBuf s l))).flatten).foldl xorFull sp.1,
       ((L.map (fun l => ((List.range kColumnSumCount).filter
          (fun k => (P.rowOpcode l row).testBit (kColumnSumCount + k))).map
            (laneBuf s l))).flatten).foldl xorFull sp.2) := by
  induction L generalizing sp with
  | nil =>
    rw [List.foldl_nil, List.map_nil, List.map_nil, List.flatten_nil,
      List.foldl_nil, List.foldl_nil]
  | cons x xs ih =>
    rw [List.foldl_cons, denseLane_eq P s row sp x h1 h2,
      List.map_cons, List.map_cons, List.flatten_cons, List.flatten_cons,
      List.foldl_append, List.foldl_append]
    exact ih _ (by rw [length_foldl_xorFull]; exact h1)
      (by rw [length_foldl_xorFull]; exact h2)

/-- C4: the dense phase of `Encode(row)` consults, for every lane `L`,
the bitmask `opcode = GetRowOpcode(L, row)`: each set bit `k` among the
low `kColumnSumCount` bits XORs lane `L`'s power-sum buffer of degree `k`
into `Sum`, and each set bit among the high `kColumnSumCount` bits XORs
the corresponding power-sum buffer into `Product`. -/
theorem dense_phase_structure (P : CodeParams) (s : EncoderState)
    (row : Nat) (sp : Buf × Buf)
    (h1 : sp.1.length = s.symbolBytes) (h2 : sp.2.length = s.symbolBytes) :
    densePhase P s row sp =
      ((laneSelect P s row 0).foldl xorFull sp.1,
       (laneSelect P s row kColumnSumCount).foldl xorFull sp.2) := by
  unfold densePhase laneSelect
  simp only [Nat.zero_add]
  exact denseFold_split P s row (List.range P.kColumnLaneCount) sp
    (le_of_eq h1) (le_of_eq h2)

/-- Witness for C4 at concrete parameters, state and accumulators. -/
theorem dense_phase_structure_witness :
    densePhase sampleParams sampleState 0 ([5, 6], [7, 8]) =
      ((laneSelect sampleParams sampleState 0 0).foldl xorFull [5, 6],
       (laneSelect sampleParams sampleState 0 kColumnSumCount).foldl
         xorFull [7, 8]) :=
  dense_phase_structure sampleParams sampleState 0 ([5, 6], [7, 8])
    (by decide) (by decide)

/-! Final combination. -/

lemma length_densePhase (P : CodeParams) (s : EncoderState) (row : Nat)
    (L : List Nat) (sp : Buf × Buf) :
    (L.foldl (denseLane P s row) sp).1.length = sp.1.length ∧
    (L.foldl (denseLane P s row) sp).2.length = sp.2.length := by
  induction L generalizing sp with
  | nil => exact ⟨rfl, rfl⟩
  | cons x xs ih =>
    rw [List.foldl_cons]
    have h := length_denseLane P s row sp x
    have h2 := ih (denseLane P s row sp x)
    exact ⟨h2.1.trans h.1, h2.2.trans h.2⟩

lemma length_encodeDense (P : CodeParams) (s : EncoderState) (row : Nat)
    (hfb : s.finalBytes ≤ s.symbolBytes) :
    (encodeDense P s row).1.length = s.symbolBytes ∧
    (encodeDense P s row).2.length = s.symbolBytes := by
  unfold encodeDense densePhase
  have hsp := length_sparsePhase P s row hfb
  have h := length_densePhase P s row (List.range P.kColumnLaneCount)
    ((sparsePhase P s row).1, (sparsePhase P s row).2.1)
  exact ⟨h.1.trans hsp.1, h.2.trans hsp.2⟩

/-- C5: in an initialized state, after both accumulators have received all
sparse and dense contributions (no further additions happen after the
flush), the output symbol of `Encode(row)` is
`Sum + RX * Product` computed bytewise over GF(256), where
`RX = GetRowValue(row)` is the nonzero field scalar of the Code
Descriptor. -/
theorem encode_final_combination (P : CodeParams) (s : EncoderState)
    (row : Nat) (p : Buf) (hp : s.product = some p)
    (hfb : s.finalBytes ≤ s.symbolBytes) :
    (Encode P s row).2.2 = some
      { data := gf256_muladd_mem P.gfMul (encodeDense P s row).1
          (P.rowValue row) (encodeDense P s row).2 s.symbolBytes
        bytes := s.symbolBytes
        index := row } ∧
    (∀ i < s.symbolBytes,
      (encodeOut P s row).getD i 0 =
        (encodeDense P s row).1.getD i 0 ^^^
          P.gfMul (P.rowValue row) ((encodeDense P s row).2.getD i 0)) ∧
    P.rowValue row ≠ 0 := by
  refine ⟨?_, ?_, P.rowValue_nz row⟩
  · rw [encodeStep_some P s row p hp]
    rfl
  · intro i hi
    unfold encodeOut
    have hlen := (length_encodeDense P s row hfb).1
    rw [getD_gf256_muladd_mem, if_pos (by rw [hlen]; exact hi), if_pos hi]

/-- Witness for C5 at the concrete initialized state, byte 0. -/
theorem encode_final_combination_witness :
    (encodeOut sampleParams sampleState 0).getD 0 0 =
      (encodeDense sampleParams sampleState 0).1.getD 0 0 ^^^
        sampleParams.gfMul (sampleParams.rowValue 0)
          ((encodeDense sampleParams sampleState 0).2.getD 0 0) :=
  (encode_final_combination sampleParams sampleState 0 [0, 0] (by decide)
    (by decide)).2.1 0 (by decide)

/-! Lane power-sum construction. -/

lemma initColumnStep_same (P : CodeParams) (sb : Nat) (data : List Buf)
    (lanes : Nat → Nat → Option Buf) (c l : Nat)
    (hl : l = c % P.kColumnLaneCount) :
    (initColumnStep P sb data lanes c l 0
      = some (gf256_add_mem ((lanes l 0).getD []) (data.getD c []) sb)) ∧
    (initColumnStep P sb data lanes c l 1
      = some (gf256_muladd_mem P.gfMul ((lanes l 1).getD [])
          (P.columnValue c) (data.getD c []) sb)) ∧
    (initColumnStep P sb data lanes c l 2
      = some (gf256_muladd_mem P.gfMul ((lanes l 2).getD [])
          (P.gfMul (P.columnValue c) (P.columnValue c))
          (data.getD c []) sb)) := by
  subst hl
  unfold initColumnStep
  refine ⟨?_, ?_, ?_⟩
  · simp
  · simp
  · simp

lemma initColumnStep_other (P : CodeParams) (sb : Nat) (data : List Buf)
    (lanes : Nat → Nat → Option Buf) (c l k : Nat)
    (hl : ¬ l = c % P.kColumnLaneCount) :
    initColumnStep P sb data lanes c l k = lanes l k := by
  unfold initColumnStep
  rw [if_neg hl]

lemma initFold_lane (P : CodeParams) (sb : Nat) (data : List Buf)
    (lanes0 : Nat → Nat → Option Buf) (m l k : Nat)
    (hk : k < kColumnSumCount) (b0 : Buf) (h0 : lanes0 l k = some b0) :
    ((List.range m).foldl (initColumnStep P sb data) lanes0) l k =
      some (((List.range m).filter
          (fun c => c % P.kColumnLaneCount == l)).foldl
        (fun acc c =>
          if k = 0 then gf256_add_mem acc (data.getD c []) sb
          else if k = 1 then
            gf256_muladd_mem P.gfMul acc (P.columnValue c) (data.getD c []) sb
          else
            gf256_muladd_mem P.gfMul acc
              (P.gfMul (P.columnValue c) (P.columnValue c))
              (data.getD c []) sb)
        b0) := by
  induction m with
  | zero => simpa using h0
  | succ j ih =>
    rw [List.range_succ, List.foldl_append, List.filter_append,
      List.foldl_append]
    simp only [List.foldl_cons, List.foldl_nil, List.filter_cons,
      List.filter_nil]
    by_cases hl : j % P.kColumnLaneCount = l
    · rw [if_pos (by simp [hl])]
      rw [List.foldl_cons, List.foldl_nil]
      have hk3 : k < 3 := hk
      interval_cases k
      · rw [(initColumnStep_same P sb data _ j l hl.symm).1, ih]
        simp
      · rw [(initColumnStep_same P sb data _ j l hl.symm).2.1, ih]
        simp
      · rw [(initColumnStep_same P sb data _ j l hl.symm).2.2, ih]
        simp
    · rw [if_neg (by simp [hl])]
      rw [initColumnStep_other P sb data _ j l k (fun he => hl he.symm)]
      exact ih

/-- C6: a successful `Initialize` zero-initializes all
`kColumnLaneCount × kColumnSumCount` lane buffers and then, for every
column `c < inputCount` with `lane = c mod kColumnLaneCount`,
`CX = GetColumnValue(c)`, `CX2 = CX²`, accumulates
`sum0[lane] += data[c]`, `sum1[lane] += CX·data[c]`,
`sum2[lane] += CX2·data[c]` over the symbol length with GF(256) add and
multiply-accumulate — so afterwards each lane slot holds exactly the
degree-0/1/2 power sum of its assigned columns. -/
theorem initialize_lane_power_sums (P : CodeParams) (alloc : Nat → Bool)
    (s : EncoderState) (n : Nat) (d : List Buf) (t sb fb : Nat)
    (hq : setParameters n t = some (sb, fb))
    (h1 : allLanesOk alloc P.kColumnLaneCount = true)
    (h2 : alloc (P.kColumnLaneCount * kColumnSumCount) = true)
    (h3 : alloc (P.kColumnLaneCount * kColumnSumCount + 1) = true) :
    (InitializeEncoder P alloc s n d t).1 = FecalResult.Success ∧
    ∀ l, l < P.kColumnLaneCount → ∀ k, k < kColumnSumCount →
      (InitializeEncoder P alloc s n d t).2.laneSums l k =
        some (laneSumSpec P ((InitializeEncoder P alloc s n d t).2.originalData)
          sb n l k) := by
  obtain ⟨hs, hin, hsb, hfb2, hod, hls, hsum, hprod⟩ :=
    initialize_success_parts P alloc s n d t sb fb hq h1 h2 h3
  refine ⟨hs, ?_⟩
  intro l hl k hk
  rw [hls, hod]
  have h0 : lanesAfterAlloc alloc P.kColumnLaneCount sb l k
      = some (List.replicate sb 0) := by
    unfold lanesAfterAlloc
    rw [if_pos]
    refine ⟨hl, hk, ?_⟩
    rw [List.all_eq_true]
    intro x hx
    unfold allLanesOk at h1
    rw [List.all_eq_true] at h1
    refine h1 x ?_
    rw [List.mem_range] at hx ⊢
    have hk3 : k < 3 := hk
    have hl3 : l * 3 + k < P.kColumnLaneCount * 3 := by
      have := Nat.succ_le_of_lt hl
      nlinarith
    unfold kColumnSumCount at hx ⊢
    omega
  rw [initFold_lane P sb _ _ n l k hk _ h0]
  rfl

/-- Witness for C6: lane 1, slot 0 of the concretely initialized encoder
holds the power sum predicted by `laneSumSpec`. -/
theorem initialize_lane_power_sums_witness :
    (InitializeEncoder sampleParams allocAll freshEncoder 2 sampleData 3).2.laneSums
        1 0 =
      some (laneSumSpec sampleParams
        (InitializeEncoder sampleParams allocAll freshEncoder 2
          sampleData 3).2.originalData 2 2 1 0) :=
  (initialize_lane_power_sums sampleParams allocAll freshEncoder 2
    sampleData 3 2 1 (by decide) (by decide) (by decide) (by decide)).2
    1 (by decide) 0 (by decide)
